import Mathlib

/-!
Shallow embedding of `src/main.rs` of the `doodoo` terminal to-do manager.

Strings are modelled as lists of bytes (`List Nat`), matching the Rust code's
use of byte offsets (`cursor_position`, `String::insert`/`remove`, `as_bytes`).
Operations that can panic in Rust (out-of-bounds indexing, insert/remove at a
non-char-boundary, `.unwrap()` on a failed save) are modelled in the `Option`
monad, `none` standing for a panic.  Presentation-only fields of the Rust
`App` struct (the scrollbar state and the title-bar context label) are not
modelled: no state-machine transition reads them.
-/

namespace Doodoo

/-- Rust `u8::is_ascii_whitespace`: space, tab, LF, FF, CR. -/
def isWs (b : Nat) : Bool :=
  b = 32 || b = 9 || b = 10 || b = 12 || b = 13

/-- A UTF-8 continuation byte (`0x80..=0xBF`). -/
def isCont (b : Nat) : Bool :=
  128 ≤ b && b < 192

/-- Rust `str::is_char_boundary` at byte index `i`. -/
def isCharBoundary (buf : List Nat) (i : Nat) : Bool :=
  i = 0 || i = buf.length || (decide (i < buf.length) && !isCont (buf.getD i 0))

/-- UTF-8 encoding of the unicode scalar value `c`. -/
def utf8Bytes (c : Nat) : List Nat :=
  if c < 128 then [c]
  else if c < 2048 then [192 + c / 64, 128 + c % 64]
  else if c < 65536 then [224 + c / 4096, 128 + (c / 64) % 64, 128 + c % 64]
  else [240 + c / 262144, 128 + (c / 4096) % 64, 128 + (c / 64) % 64, 128 + c % 64]

/-- Number of bytes of the UTF-8 character whose leading byte is `b`. -/
def charLenAt (b : Nat) : Nat :=
  if b < 128 then 1 else if b < 224 then 2 else if b < 240 then 3 else 4

/-- Rust `String::insert(i, c)`: panics (`none`) unless `i` is a char boundary. -/
def stringInsert (buf : List Nat) (i : Nat) (c : Nat) : Option (List Nat) :=
  if isCharBoundary buf i then some (buf.take i ++ utf8Bytes c ++ buf.drop i)
  else none

/-- Rust `String::remove(i)`: panics (`none`) unless `i` is an in-bounds char
boundary; removes the character starting at byte `i`. -/
def stringRemove (buf : List Nat) (i : Nat) : Option (List Nat) :=
  if i < buf.length ∧ isCharBoundary buf i = true then
    some (buf.take i ++ buf.drop (i + charLenAt (buf.getD i 0)))
  else none

/-- The loop `while pos > 0 && bytes[pos].is_ascii_whitespace() { pos -= 1 }`. -/
def skipWsBack (buf : List Nat) : Nat → Nat
  | 0 => 0
  | pos + 1 => if isWs (buf.getD (pos + 1) 0) then skipWsBack buf pos else pos + 1

/-- The loop `while pos > 0 && !bytes[pos].is_ascii_whitespace() { pos -= 1 }`. -/
def skipNonWsBack (buf : List Nat) : Nat → Nat
  | 0 => 0
  | pos + 1 => if isWs (buf.getD (pos + 1) 0) then pos + 1 else skipNonWsBack buf pos

/-- Ctrl+Left target position in `App::edit_buffer`, for `cur > 0`
(the Rust code guards the whole computation with `*cursor_pos > 0`). -/
def ctrlLeftPos (buf : List Nat) (cur : Nat) : Nat :=
  let pos := skipNonWsBack buf (skipWsBack buf (cur - 1))
  if pos > 0 || isWs (buf.getD 0 0) then pos + 1 else pos

/-- Length of the leading run of non-whitespace bytes. -/
def countNonWs : List Nat → Nat
  | [] => 0
  | b :: rest => if isWs b then 0 else countNonWs rest + 1

/-- Length of the leading run of whitespace bytes. -/
def countWs : List Nat → Nat
  | [] => 0
  | b :: rest => if isWs b then countWs rest + 1 else 0

/-- Ctrl+Right target position in `App::edit_buffer`: skip the current
non-whitespace run, then the following whitespace run. -/
def ctrlRightPos (buf : List Nat) (cur : Nat) : Nat :=
  let rest := buf.drop cur
  let n1 := countNonWs rest
  cur + n1 + countWs (rest.drop n1)

inductive KeyCode where
  | enter
  | esc
  | backspace
  | left
  | right
  | up
  | down
  | char (c : Nat)
  | other
  deriving DecidableEq, Repr

structure KeyEvent where
  code : KeyCode
  ctrl : Bool := false
  shift : Bool := false
  deriving DecidableEq, Repr

inductive EditResult where
  | enter
  | esc
  | noop
  deriving DecidableEq, Repr

/-- Rust `App::edit_buffer`: shared editor for the four modal buffers.
Returns the updated buffer, updated cursor and an `EditResult`. -/
def editBuffer (buf : List Nat) (cur : Nat) (k : KeyEvent) :
    Option (List Nat × Nat × EditResult) :=
  match k.code with
  | KeyCode.enter => some (buf, cur, EditResult.enter)
  | KeyCode.esc => some (buf, cur, EditResult.esc)
  | KeyCode.char c => (stringInsert buf cur c).map (fun b => (b, cur + 1, EditResult.noop))
  | KeyCode.backspace =>
      if cur > 0 then (stringRemove buf (cur - 1)).map (fun b => (b, cur - 1, EditResult.noop))
      else some (buf, cur, EditResult.noop)
  | KeyCode.left =>
      if k.ctrl then
        some (buf, (if cur > 0 then ctrlLeftPos buf cur else cur), EditResult.noop)
      else
        some (buf, (if cur > 0 then cur - 1 else cur), EditResult.noop)
  | KeyCode.right =>
      if k.ctrl then
        some (buf, ctrlRightPos buf cur, EditResult.noop)
      else
        some (buf, (if cur < buf.length then cur + 1 else cur), EditResult.noop)
  | _ => some (buf, cur, EditResult.noop)

structure Todo where
  name : List Nat
  completed : Bool
  deriving DecidableEq, Repr

structure Page where
  name : List Nat
  todos : List Todo
  deriving DecidableEq, Repr

/-- The Rust `App` struct.  The presentation-only fields `scrollbar_state`
and `context_prefix` are not modelled (no key handler reads them). -/
structure App where
  pages : List Page
  currentPageIndex : Nat
  selectedTodoIndex : Nat
  isCreatingTodo : Bool
  newTodoInput : List Nat
  isCreatingPage : Bool
  newPageNameInput : List Nat
  isRenamingPage : Bool
  renamePageInput : List Nat
  isRenamingTodo : Bool
  renameTodoInput : List Nat
  shouldQuit : Bool
  cursorPosition : Nat
  deriving DecidableEq, Repr

/-- Rust `self.current_todos()`: indexes `pages[current_page_index]`,
`none` standing for the out-of-bounds panic. -/
def App.curTodos? (a : App) : Option (List Todo) :=
  (a.pages.get? a.currentPageIndex).map Page.todos

/-- Write back the current page's todo list (used after a successful
`curTodos?`, so the `List.set` index is in bounds). -/
def App.setCurTodos (a : App) (ts : List Todo) : App :=
  let pg := a.pages.getD a.currentPageIndex ⟨[], []⟩
  { a with pages := a.pages.set a.currentPageIndex { pg with todos := ts } }

/-- Rust `Vec::swap`: panics (`none`) if either index is out of bounds. -/
def listSwap (l : List α) (i j : Nat) : Option (List α) :=
  match l.get? i, l.get? j with
  | some x, some y => some ((l.set i y).set j x)
  | _, _ => none

/-- The `is_creating_todo` branch of `App::process_input_event`: Up/Down
still move the selection cyclically; everything else goes to the shared
editor, and Enter commits the new todo. -/
def creatingTodoStep (a : App) (k : KeyEvent) : Option App :=
  match k.code with
  | KeyCode.down =>
      match a.curTodos? with
      | none => none
      | some ts =>
          if ts.isEmpty then some a
          else some { a with selectedTodoIndex := (a.selectedTodoIndex + 1) % ts.length }
  | KeyCode.up =>
      match a.curTodos? with
      | none => none
      | some ts =>
          if ts.isEmpty then some a
          else some { a with
            selectedTodoIndex := (a.selectedTodoIndex + ts.length - 1) % ts.length }
  | _ =>
      match editBuffer a.newTodoInput a.cursorPosition k with
      | none => none
      | some (buf, cur, r) =>
          match r with
          | EditResult.enter =>
              if buf.isEmpty then
                some { a with newTodoInput := [], isCreatingTodo := false, cursorPosition := 0 }
              else
                match a.curTodos? with
                | none => none
                | some ts =>
                    let ts' := ts ++ [⟨buf, false⟩]
                    let a' := ({ a with newTodoInput := [] } : App).setCurTodos ts'
                    some { a' with selectedTodoIndex := ts'.length - 1,
                                   isCreatingTodo := false, cursorPosition := 0 }
          | EditResult.esc =>
              some { a with isCreatingTodo := false, newTodoInput := [], cursorPosition := 0 }
          | EditResult.noop =>
              some { a with newTodoInput := buf, cursorPosition := cur }

/-- The `is_creating_page` branch of `App::process_input_event`. -/
def creatingPageStep (a : App) (k : KeyEvent) : Option App :=
  match editBuffer a.newPageNameInput a.cursorPosition k with
  | none => none
  | some (buf, cur, r) =>
      match r with
      | EditResult.enter =>
          let pages' := a.pages ++ [⟨buf, []⟩]
          some { a with pages := pages', newPageNameInput := [],
                        currentPageIndex := pages'.length - 1, selectedTodoIndex := 0,
                        isCreatingPage := false, cursorPosition := 0 }
      | EditResult.esc =>
          some { a with isCreatingPage := false, newPageNameInput := [], cursorPosition := 0 }
      | EditResult.noop =>
          some { a with newPageNameInput := buf, cursorPosition := cur }

/-- The `is_renaming_page` branch of `App::process_input_event`: an empty
committed buffer deletes the current page unless it is the last one. -/
def renamingPageStep (a : App) (k : KeyEvent) : Option App :=
  match editBuffer a.renamePageInput a.cursorPosition k with
  | none => none
  | some (buf, cur, r) =>
      match r with
      | EditResult.enter =>
          if buf.isEmpty then
            if a.pages.length > 1 then
              if a.currentPageIndex < a.pages.length then
                let pages' := a.pages.eraseIdx a.currentPageIndex
                let cpi := if a.currentPageIndex ≥ pages'.length
                           then pages'.length - 1 else a.currentPageIndex
                some { a with pages := pages', currentPageIndex := cpi,
                              selectedTodoIndex := 0, isRenamingPage := false,
                              renamePageInput := [] }
              else none
            else
              some { a with isRenamingPage := false, renamePageInput := [] }
          else
            match a.pages.get? a.currentPageIndex with
            | none => none
            | some pg =>
                some { a with pages := a.pages.set a.currentPageIndex { pg with name := buf },
                              isRenamingPage := false, renamePageInput := [] }
      | EditResult.esc =>
          some { a with isRenamingPage := false, renamePageInput := [] }
      | EditResult.noop =>
          some { a with renamePageInput := buf, cursorPosition := cur }

/-- The `is_renaming_todo` branch of `App::process_input_event`: an empty
committed buffer deletes the selected todo and clamps the selection. -/
def renamingTodoStep (a : App) (k : KeyEvent) : Option App :=
  match editBuffer a.renameTodoInput a.cursorPosition k with
  | none => none
  | some (buf, cur, r) =>
      match r with
      | EditResult.enter =>
          match a.curTodos? with
          | none => none
          | some ts =>
              if ts.isEmpty then
                some { a with isRenamingTodo := false, renameTodoInput := [] }
              else
                if buf.isEmpty then
                  if a.selectedTodoIndex < ts.length then
                    let ts' := ts.eraseIdx a.selectedTodoIndex
                    let a' := ({ a with renameTodoInput := [] } : App).setCurTodos ts'
                    let sel := if ts'.isEmpty then 0
                               else if a.selectedTodoIndex ≥ ts'.length then ts'.length - 1
                               else a.selectedTodoIndex
                    some { a' with selectedTodoIndex := sel, isRenamingTodo := false }
                  else none
                else
                  match ts.get? a.selectedTodoIndex with
                  | none => none
                  | some t =>
                      let a' := ({ a with renameTodoInput := [] } : App).setCurTodos
                                  (ts.set a.selectedTodoIndex { t with name := buf })
                      some { a' with isRenamingTodo := false }
      | EditResult.esc =>
          some { a with isRenamingTodo := false, renameTodoInput := [] }
      | EditResult.noop =>
          some { a with renameTodoInput := buf, cursorPosition := cur }

/-- Rust `App::process_input_event`: dispatch to the active modal branch,
each of which returns `true`; `false` when no modal buffer is active.
Saves inside the branches are `.ok()`-ignored, so they do not appear. -/
def processInputEvent (a : App) (k : KeyEvent) : Option (App × Bool) :=
  if a.isCreatingTodo then (creatingTodoStep a k).map (fun x => (x, true))
  else if a.isCreatingPage then (creatingPageStep a k).map (fun x => (x, true))
  else if a.isRenamingPage then (renamingPageStep a k).map (fun x => (x, true))
  else if a.isRenamingTodo then (renamingTodoStep a k).map (fun x => (x, true))
  else some (a, false)

/-- Normal-mode `Down`/`j` without Shift: cyclic selection move. -/
def downNav (a : App) : Option App :=
  match a.curTodos? with
  | none => none
  | some ts =>
      if ts.isEmpty then some a
      else some { a with selectedTodoIndex := (a.selectedTodoIndex + 1) % ts.length }

/-- Normal-mode `Up`/`k` without Shift: cyclic selection move backwards. -/
def upNav (a : App) : Option App :=
  match a.curTodos? with
  | none => none
  | some ts =>
      if ts.isEmpty then some a
      else some { a with selectedTodoIndex := (a.selectedTodoIndex + ts.length - 1) % ts.length }

/-- Normal-mode Shift+Down/`j`: swap the selected todo with the next one
(cyclic) and follow it; the save is `.unwrap()`ed, so a failed save panics. -/
def downSwapTodo (saveOk : Bool) (a : App) : Option App :=
  match a.curTodos? with
  | none => none
  | some ts =>
      if ts.isEmpty = false ∧ ts.length > 1 then
        let nxt := (a.selectedTodoIndex + 1) % ts.length
        match listSwap ts a.selectedTodoIndex nxt with
        | none => none
        | some ts' =>
            let a' := { a.setCurTodos ts' with selectedTodoIndex := nxt }
            if saveOk then some a' else none
      else some a

/-- Normal-mode Shift+Up/`k`: swap the selected todo with the previous one. -/
def upSwapTodo (saveOk : Bool) (a : App) : Option App :=
  match a.curTodos? with
  | none => none
  | some ts =>
      if ts.isEmpty = false ∧ ts.length > 1 then
        let prv := (a.selectedTodoIndex + ts.length - 1) % ts.length
        match listSwap ts a.selectedTodoIndex prv with
        | none => none
        | some ts' =>
            let a' := { a.setCurTodos ts' with selectedTodoIndex := prv }
            if saveOk then some a' else none
      else some a

/-- Normal-mode `Enter`: toggle `completed` on the selected todo, save via
`.unwrap()`. -/
def toggleTodo (saveOk : Bool) (a : App) : Option App :=
  match a.curTodos? with
  | none => none
  | some ts =>
      if ts.isEmpty then some a
      else
        match ts.get? a.selectedTodoIndex with
        | none => none
        | some t =>
            let a' := a.setCurTodos (ts.set a.selectedTodoIndex { t with completed := !t.completed })
            if saveOk then some a' else none

/-- Normal-mode `d`: remove the selected todo, clamp the selection, save via
`.unwrap()`. -/
def deleteTodo (saveOk : Bool) (a : App) : Option App :=
  match a.curTodos? with
  | none => none
  | some ts =>
      if ts.isEmpty then some a
      else
        if a.selectedTodoIndex < ts.length then
          let ts' := ts.eraseIdx a.selectedTodoIndex
          let sel := if ts'.isEmpty then 0
                     else if a.selectedTodoIndex ≥ ts'.length then ts'.length - 1
                     else a.selectedTodoIndex
          let a' := { a.setCurTodos ts' with selectedTodoIndex := sel }
          if saveOk then some a' else none
        else none

/-- Normal-mode `r`: enter RenamingTodo with the buffer pre-filled with the
selected todo's name and the cursor at its end. -/
def startRenameTodo (a : App) : Option App :=
  match a.curTodos? with
  | none => none
  | some ts =>
      if ts.isEmpty then some a
      else
        match ts.get? a.selectedTodoIndex with
        | none => none
        | some t =>
            some { a with renameTodoInput := t.name, cursorPosition := t.name.length,
                          isRenamingTodo := true }

/-- Normal-mode `Right`/`l` dispatch (page swap with Shift, else page move). -/
def rightPage (saveOk : Bool) (a : App) (shift : Bool) : Option App :=
  if shift then
    if a.pages.length > 1 then
      let nxt := (a.currentPageIndex + 1) % a.pages.length
      match listSwap a.pages a.currentPageIndex nxt with
      | none => none
      | some pages' =>
          let a' := { a with pages := pages', currentPageIndex := nxt }
          if saveOk then some a' else none
    else some a
  else
    if a.pages.isEmpty then some a
    else some { a with currentPageIndex := (a.currentPageIndex + 1) % a.pages.length,
                       selectedTodoIndex := 0 }

/-- Normal-mode `Left`/`h` dispatch (page swap with Shift, else page move). -/
def leftPage (saveOk : Bool) (a : App) (shift : Bool) : Option App :=
  if shift then
    if a.pages.length > 1 then
      let prv := (a.currentPageIndex + a.pages.length - 1) % a.pages.length
      match listSwap a.pages a.currentPageIndex prv with
      | none => none
      | some pages' =>
          let a' := { a with pages := pages', currentPageIndex := prv }
          if saveOk then some a' else none
    else some a
  else
    if a.pages.isEmpty then some a
    else some { a with
      currentPageIndex := (a.currentPageIndex + a.pages.length - 1) % a.pages.length,
      selectedTodoIndex := 0 }

/-- Normal-mode digit key `'1'..='9'` (`c` is the unicode scalar value,
so `49 ≤ c ≤ 57`): select page, rename current page, or create a page. -/
def digitKey (a : App) (c : Nat) : Option App :=
  let pageIndex := (c - 48) - 1
  if pageIndex < a.pages.length then
    if pageIndex = a.currentPageIndex then
      match a.pages.get? a.currentPageIndex with
      | none => none
      | some pg =>
          some { a with renamePageInput := pg.name, cursorPosition := pg.name.length,
                        isRenamingPage := true }
    else some { a with currentPageIndex := pageIndex, selectedTodoIndex := 0 }
  else
    some { a with isCreatingPage := true, newPageNameInput := [], cursorPosition := 0 }

/-- The Normal-mode `match key.code` in `run_app`, reached when
`process_input_event` returned `false`.  `saveOk` is the outcome of the
synchronous `save_app_data` calls, which Normal mode `.unwrap()`s. -/
def normalStep (saveOk : Bool) (a : App) (k : KeyEvent) : Option App :=
  match k.code with
  | KeyCode.char 113 => some { a with shouldQuit := true }
  | KeyCode.char 110 =>
      some { a with isCreatingTodo := true, cursorPosition := a.newTodoInput.length }
  | KeyCode.down => if k.shift then downSwapTodo saveOk a else downNav a
  | KeyCode.char 106 => if k.shift then downSwapTodo saveOk a else downNav a
  | KeyCode.up => if k.shift then upSwapTodo saveOk a else upNav a
  | KeyCode.char 107 => if k.shift then upSwapTodo saveOk a else upNav a
  | KeyCode.enter => toggleTodo saveOk a
  | KeyCode.char 100 => deleteTodo saveOk a
  | KeyCode.char 114 => startRenameTodo a
  | KeyCode.right => rightPage saveOk a k.shift
  | KeyCode.char 108 => rightPage saveOk a k.shift
  | KeyCode.left => leftPage saveOk a k.shift
  | KeyCode.char 104 => leftPage saveOk a k.shift
  | KeyCode.char c => if 49 ≤ c ∧ c ≤ 57 then digitKey a c else some a
  | _ => some a

/-- One key event through `run_app`'s handler: `process_input_event`
first; Normal-mode dispatch only when it returns `false`. -/
def stepFull (saveOk : Bool) (a : App) (k : KeyEvent) : Option App :=
  match processInputEvent a k with
  | none => none
  | some (a', handled) => if handled then some a' else normalStep saveOk a' k

/-- Run a list of key events, each paired with the outcome its save calls
would have; `none` as soon as any step panics. -/
def runEvents (a : App) : List (KeyEvent × Bool) → Option App
  | [] => some a
  | (k, sOk) :: rest =>
      match stepFull sOk a k with
      | none => none
      | some a' => runEvents a' rest

/-- JSON values, the target of `serde_json` serialization.  Serialization and
parsing are modelled at the JSON-value level; string keys are byte lists. -/
inductive Json where
  | null
  | bool (b : Bool)
  | num (n : Int)
  | str (s : List Nat)
  | arr (xs : List Json)
  | obj (fields : List (List Nat × Json))

/-- The bytes of `"name"`. -/
def nameKey : List Nat := [110, 97, 109, 101]

/-- The bytes of `"todos"`. -/
def todosKey : List Nat := [116, 111, 100, 111, 115]

/-- The bytes of `"completed"`. -/
def completedKey : List Nat := [99, 111, 109, 112, 108, 101, 116, 101, 100]

/-- Derived `Serialize` for `Todo`: an object with keys in declaration order. -/
def todoToJson (t : Todo) : Json :=
  Json.obj [(nameKey, Json.str t.name), (completedKey, Json.bool t.completed)]

/-- Derived `Serialize` for `Page`. -/
def pageToJson (p : Page) : Json :=
  Json.obj [(nameKey, Json.str p.name), (todosKey, Json.arr (p.todos.map todoToJson))]

/-- Rust `save_app_data(&self.pages)`: the JSON document written to disk
(`serde_json::to_string_pretty` of the page slice). -/
def encodePages (pages : List Page) : Json :=
  Json.arr (pages.map pageToJson)

def asStr : Json → Option (List Nat)
  | Json.str s => some s
  | _ => none

def asBool : Json → Option Bool
  | Json.bool b => some b
  | _ => none

def asArr : Json → Option (List Json)
  | Json.arr xs => some xs
  | _ => none

def asObj : Json → Option (List (List Nat × Json))
  | Json.obj fs => some fs
  | _ => none

/-- Look up an object field by key. -/
def getField (fs : List (List Nat × Json)) (k : List Nat) : Option Json :=
  (fs.find? (fun p => p.1 = k)).map Prod.snd

/-- Derived `Deserialize` for `Todo` (JSON maps only; missing or
ill-typed fields are errors). -/
def todoFromJson (j : Json) : Option Todo := do
  let fs ← asObj j
  let n ← getField fs nameKey >>= asStr
  let c ← getField fs completedKey >>= asBool
  return ⟨n, c⟩

/-- Derived `Deserialize` for `Page`. -/
def pageFromJson (j : Json) : Option Page := do
  let fs ← asObj j
  let n ← getField fs nameKey >>= asStr
  let ts ← getField fs todosKey >>= asArr
  let todos ← ts.mapM todoFromJson
  return ⟨n, todos⟩

/-- `serde_json::from_str::<Vec<Page>>` on an already-lexed JSON value:
`none` is the `CorruptData` parse error. -/
def decodePages (j : Json) : Option (List Page) :=
  asArr j >>= fun xs => xs.mapM pageFromJson

/-- Rust `load_app_data`: a missing file (`none`) loads as the empty page
list; an existing file must parse, else the error propagates. -/
def loadAppData (file : Option Json) : Option (List Page) :=
  match file with
  | none => some []
  | some j => decodePages j

/-- The bytes of `"main"`. -/
def mainName : List Nat := [109, 97, 105, 110]

/-- Rust `App::new`: `load_app_data().unwrap_or_else(|_| vec![])`, then the
default `"main"` page is pushed when the list is empty. -/
def appNew (file : Option Json) : App :=
  let pages := (loadAppData file).getD []
  let pages := if pages.isEmpty then [⟨mainName, []⟩] else pages
  { pages := pages
    currentPageIndex := 0
    selectedTodoIndex := 0
    isCreatingTodo := false
    newTodoInput := []
    isCreatingPage := false
    newPageNameInput := []
    isRenamingPage := false
    renamePageInput := []
    isRenamingTodo := false
    renameTodoInput := []
    shouldQuit := false
    cursorPosition := 0 }

/-- Modelled from the spec, for comparison with `ctrlLeftPos`: "skip any
trailing whitespace immediately before the cursor, then skip the contiguous
non-whitespace run before that, landing just after the whitespace that
precedes it (or at position 0)".  `skipWsBackSpec buf i` examines the bytes
strictly before position `i`. -/
def skipWsBackSpec (buf : List Nat) : Nat → Nat
  | 0 => 0
  | i + 1 => if isWs (buf.getD i 0) then skipWsBackSpec buf i else i + 1

/-- Modelled from the spec: skip the non-whitespace run strictly before
position `i`. -/
def skipNonWsBackSpec (buf : List Nat) : Nat → Nat
  | 0 => 0
  | i + 1 => if isWs (buf.getD i 0) then i + 1 else skipNonWsBackSpec buf i

/-- Modelled from the spec: the Ctrl+Left target the spec sentence
describes. -/
def ctrlLeftSpecPos (buf : List Nat) (cur : Nat) : Nat :=
  skipNonWsBackSpec buf (skipWsBackSpec buf cur)

/-- Every byte strictly before `cur` is ASCII whitespace. -/
def allWsBefore (buf : List Nat) (cur : Nat) : Prop :=
  ∀ i, i < cur → isWs (buf.getD i 0) = true

instance (buf : List Nat) (cur : Nat) : Decidable (allWsBefore buf cur) :=
  Nat.decidableBallLT cur fun i _ => isWs (buf.getD i 0) = true

end Doodoo

namespace Doodoo

theorem mapM_map_some {α β : Type} (f : α → β) (g : β → Option α)
    (h : ∀ x, g (f x) = some x) : ∀ l : List α, (l.map f).mapM g = some l := by
  intro l
  induction l with
  | nil => rfl
  | cons x xs ih => rw [List.map_cons, List.mapM_cons, h, ih]; rfl

theorem todo_roundtrip (t : Todo) : todoFromJson (todoToJson t) = some t := rfl

theorem page_roundtrip (p : Page) : pageFromJson (pageToJson p) = some p := by
  show (Json.obj [(nameKey, Json.str p.name), (todosKey, Json.arr (p.todos.map todoToJson))]
        |> pageFromJson) = some p
  unfold pageFromJson
  rw [show asObj (Json.obj [(nameKey, Json.str p.name),
      (todosKey, Json.arr (p.todos.map todoToJson))]) =
      some [(nameKey, Json.str p.name), (todosKey, Json.arr (p.todos.map todoToJson))] from rfl]
  show ((p.todos.map todoToJson).mapM todoFromJson).bind
      (fun todos => some ⟨p.name, todos⟩) = some p
  rw [mapM_map_some todoToJson todoFromJson todo_roundtrip]
  rfl

/-- C9: decoding an encoded Document restores it exactly: save followed by
load is the identity on page names, todo names, todo order and completed
flags, hence re-serializing yields the same JSON document. -/
theorem save_load_roundtrip (D : List Page) : decodePages (encodePages D) = some D := by
  show ((D.map pageToJson).mapM pageFromJson) = some D
  rw [mapM_map_some pageToJson pageFromJson page_roundtrip]

/-- C1 counterexample: the file content `true` is unparseable as a page
array (`loadAppData` errors), yet `App::new` does not propagate the error:
it produces a running App whose Document fell back to the synthesized
default "main" page. -/
theorem corrupt_file_not_fatal :
    loadAppData (some (Json.bool true)) = none ∧
    appNew (some (Json.bool true)) = appNew none ∧
    (appNew (some (Json.bool true))).pages = [⟨mainName, []⟩] := by
  refine ⟨rfl, rfl, rfl⟩

/-- C1 amended: for every unparseable file content, `App::new` swallows the
parse error (`unwrap_or_else`), falls back to the empty Document and then
synthesizes the default "main" page, constructing the same App a missing
file yields; the error is not propagated. -/
theorem corrupt_file_falls_back (j : Json) (h : decodePages j = none) :
    appNew (some j) = appNew none ∧ (appNew (some j)).pages = [⟨mainName, []⟩] := by
  simp only [appNew, loadAppData, h]
  exact ⟨rfl, rfl⟩

/-- C1 amended, witness at the concrete content `true`. -/
theorem corrupt_file_falls_back_witness :
    appNew (some (Json.bool true)) = appNew none ∧
    (appNew (some (Json.bool true))).pages = [⟨mainName, []⟩] :=
  corrupt_file_falls_back (Json.bool true) rfl

end Doodoo

namespace Doodoo

theorem processInputEvent_not_handled {a a' : App} {k : KeyEvent}
    (h : processInputEvent a k = some (a', false)) :
    a.isCreatingTodo = false ∧ a.isCreatingPage = false ∧ a.isRenamingPage = false ∧
    a.isRenamingTodo = false ∧ a' = a := by
  unfold processInputEvent at h
  split at h
  · rcases creatingTodoStep a k with _ | x <;> simp_all
  · split at h
    · rcases creatingPageStep a k with _ | x <;> simp_all
    · split at h
      · rcases renamingPageStep a k with _ | x <;> simp_all
      · split at h
        · rcases renamingTodoStep a k with _ | x <;> simp_all
        · simp_all

end Doodoo

namespace Doodoo

/-- C2 counterexample: in Normal mode with one todo, pressing Enter (toggle
completed) when the synchronous save fails does not return control to the
event loop with the state intact: the `.unwrap()` panics (modelled `none`),
aborting the process. -/
theorem save_failure_panics_in_normal_mode :
    stepFull false { appNew none with pages := [⟨mainName, [⟨[97], false⟩]⟩] }
      ⟨KeyCode.enter, false, false⟩ = none := by decide

/-- C2 amended: save outcomes never affect the modal branches (their saves
are `.ok()`-ignored), but every Normal-mode handler that persists
`.unwrap()`s its save: with a failing save, Enter (toggle) and `d` (delete)
panic whenever the todo list is non-empty, Shift+Down and Shift+Up (todo
swaps) panic whenever it has at least two todos, and Shift+Right and
Shift+Left (page swaps) panic whenever at least two pages exist. -/
theorem save_failure_split :
    (∀ (a : App) (k : KeyEvent) (s₁ s₂ : Bool),
      (a.isCreatingTodo || a.isCreatingPage || a.isRenamingPage || a.isRenamingTodo) = true →
      stepFull s₁ a k = stepFull s₂ a k) ∧
    (∀ (a : App) (ts : List Todo),
      a.isCreatingTodo = false → a.isCreatingPage = false → a.isRenamingPage = false →
      a.isRenamingTodo = false → a.curTodos? = some ts → ts.isEmpty = false →
      a.selectedTodoIndex < ts.length →
      stepFull false a ⟨KeyCode.enter, false, false⟩ = none ∧
      stepFull false a ⟨KeyCode.char 100, false, false⟩ = none ∧
      (1 < ts.length →
        stepFull false a ⟨KeyCode.down, false, true⟩ = none ∧
        stepFull false a ⟨KeyCode.up, false, true⟩ = none)) ∧
    (∀ a : App,
      a.isCreatingTodo = false → a.isCreatingPage = false → a.isRenamingPage = false →
      a.isRenamingTodo = false → 1 < a.pages.length →
      a.currentPageIndex < a.pages.length →
      stepFull false a ⟨KeyCode.right, false, true⟩ = none ∧
      stepFull false a ⟨KeyCode.left, false, true⟩ = none) := by
  refine ⟨?_, ?_, ?_⟩
  · intro a k s₁ s₂ hm
    unfold stepFull
    rcases hp : processInputEvent a k with _ | ⟨a'', handled⟩
    · rfl
    · cases handled
      · obtain ⟨h1, h2, h3, h4, -⟩ := processInputEvent_not_handled hp
        simp [h1, h2, h3, h4] at hm
      · rfl
  · intro a ts h1 h2 h3 h4 hts hne hsel
    have hpie : ∀ k : KeyEvent, stepFull false a k = normalStep false a k := by
      intro k
      unfold stepFull processInputEvent
      rw [h1, h2, h3, h4]
      rfl
    refine ⟨?_, ?_, fun hgt => ⟨?_, ?_⟩⟩
    · rw [hpie]
      show toggleTodo false a = none
      simp only [toggleTodo, hts, hne, Bool.false_eq_true, if_false]
      rw [List.get?_eq_get hsel]
    · rw [hpie]
      show deleteTodo false a = none
      simp only [deleteTodo, hts, hne, Bool.false_eq_true, if_false]
      split <;> rfl
    · rw [hpie]
      show downSwapTodo false a = none
      simp only [downSwapTodo, hts]
      rw [if_pos ⟨hne, hgt⟩]
      have hx := List.get?_eq_get hsel
      have hy := List.get?_eq_get
        (Nat.mod_lt (a.selectedTodoIndex + 1) (show 0 < ts.length by omega))
      simp only [listSwap, hx, hy]
      rfl
    · rw [hpie]
      show upSwapTodo false a = none
      simp only [upSwapTodo, hts]
      rw [if_pos ⟨hne, hgt⟩]
      have hx := List.get?_eq_get hsel
      have hy := List.get?_eq_get
        (Nat.mod_lt (a.selectedTodoIndex + ts.length - 1) (show 0 < ts.length by omega))
      simp only [listSwap, hx, hy]
      rfl
  · intro a h1 h2 h3 h4 hgt hcpi
    have hpie : ∀ k : KeyEvent, stepFull false a k = normalStep false a k := by
      intro k
      unfold stepFull processInputEvent
      rw [h1, h2, h3, h4]
      rfl
    constructor
    · rw [hpie]
      show rightPage false a true = none
      simp only [rightPage]
      rw [if_pos hgt]
      have hx := List.get?_eq_get hcpi
      have hy := List.get?_eq_get
        (Nat.mod_lt (a.currentPageIndex + 1) (show 0 < a.pages.length by omega))
      simp only [listSwap, hx, hy]
      rfl
    · rw [hpie]
      show leftPage false a true = none
      simp only [leftPage]
      rw [if_pos hgt]
      have hx := List.get?_eq_get hcpi
      have hy := List.get?_eq_get
        (Nat.mod_lt (a.currentPageIndex + a.pages.length - 1)
          (show 0 < a.pages.length by omega))
      simp only [listSwap, hx, hy]
      rfl

/-- C2 amended, witness: modal independence at a concrete creating-todo
state, and the Normal-mode panics at a concrete one-todo state (Enter
toggle) and a concrete two-page state (Shift+Right page swap), both with a
failing save. -/
theorem save_failure_split_witness :
    stepFull true { appNew none with isCreatingTodo := true } ⟨KeyCode.char 97, false, false⟩ =
      stepFull false { appNew none with isCreatingTodo := true }
        ⟨KeyCode.char 97, false, false⟩ ∧
    stepFull false { appNew none with pages := [⟨mainName, [⟨[98], false⟩]⟩] }
      ⟨KeyCode.enter, false, false⟩ = none ∧
    stepFull false { appNew none with pages := [⟨[112], []⟩, ⟨[113], []⟩] }
      ⟨KeyCode.right, false, true⟩ = none :=
  ⟨save_failure_split.1 _ _ true false (by decide),
   (save_failure_split.2.1 { appNew none with pages := [⟨mainName, [⟨[98], false⟩]⟩] }
     [⟨[98], false⟩] rfl rfl rfl rfl rfl rfl (by decide)).1,
   (save_failure_split.2.2 { appNew none with pages := [⟨[112], []⟩, ⟨[113], []⟩] }
     rfl rfl rfl rfl (by decide) (by decide)).1⟩

/-- C3 counterexample: in CreatingPage mode with two todos on the current
page and selection 0, pressing Down leaves the app (and in particular
`selected_todo_index`) unchanged, instead of moving the selection
cyclically to `(0 + 1) % 2 = 1` as the claim requires for all four modes. -/
theorem down_ignored_in_creating_page :
    stepFull true
      { appNew none with pages := [⟨mainName, [⟨[97], false⟩, ⟨[98], false⟩]⟩],
                          isCreatingPage := true } ⟨KeyCode.down, false, false⟩ =
      some { appNew none with pages := [⟨mainName, [⟨[97], false⟩, ⟨[98], false⟩]⟩],
                              isCreatingPage := true } ∧
    (0 : Nat) ≠ (0 + 1) % 2 := by
  exact ⟨by decide, by decide⟩

/-- C3 amended: while a modal buffer is active the key is always consumed by
`process_input_event` (Normal-mode bindings are suppressed), and Up/Down
still move the todo selection cyclically only in CreatingTodo mode; in
CreatingPage, RenamingPage and RenamingTodo modes Up and Down are ignored
by the shared editor and the app is left unchanged. -/
theorem modal_updown_behavior :
    (∀ (a : App) (ts : List Todo) (sOk : Bool), a.isCreatingTodo = true →
      a.curTodos? = some ts →
      stepFull sOk a ⟨KeyCode.down, false, false⟩ =
        some (if ts.isEmpty then a
              else { a with selectedTodoIndex := (a.selectedTodoIndex + 1) % ts.length }) ∧
      stepFull sOk a ⟨KeyCode.up, false, false⟩ =
        some (if ts.isEmpty then a
              else { a with
                selectedTodoIndex := (a.selectedTodoIndex + ts.length - 1) % ts.length })) ∧
    (∀ (a : App) (k : KeyEvent) (sOk : Bool), a.isCreatingTodo = false →
      (a.isCreatingPage = true ∨ a.isRenamingPage = true ∨ a.isRenamingTodo = true) →
      (k.code = KeyCode.up ∨ k.code = KeyCode.down) →
      stepFull sOk a k = some a) ∧
    (∀ (a : App) (k : KeyEvent) (x : App × Bool),
      (a.isCreatingTodo || a.isCreatingPage || a.isRenamingPage || a.isRenamingTodo) = true →
      processInputEvent a k = some x → x.2 = true) := by
  refine ⟨?_, ?_, ?_⟩
  · intro a ts sOk h1 hts
    by_cases he : ts.isEmpty <;>
      constructor <;>
        simp only [stepFull, processInputEvent, creatingTodoStep, h1, hts, he,
          Option.map_some', ite_true, ite_false, Bool.false_eq_true, if_true, if_false]
  · intro a k sOk h1 hm hk
    have hedit : ∀ buf cur, editBuffer buf cur k = some (buf, cur, EditResult.noop) := by
      intro buf cur
      rcases hk with hk | hk <;> rw [editBuffer, hk]
    unfold stepFull processInputEvent
    rw [h1]
    simp only [Bool.false_eq_true, if_false]
    by_cases h2 : a.isCreatingPage
    · rw [if_pos h2]
      unfold creatingPageStep
      rw [hedit]
      rfl
    · rw [if_neg h2]
      by_cases h3 : a.isRenamingPage
      · rw [if_pos h3]
        unfold renamingPageStep
        rw [hedit]
        rfl
      · rw [if_neg h3]
        by_cases h4 : a.isRenamingTodo
        · rw [if_pos h4]
          unfold renamingTodoStep
          rw [hedit]
          rfl
        · simp [h2, h3, h4] at hm
  · intro a k x hm hx
    rcases x with ⟨a'', handled⟩
    cases handled
    · obtain ⟨h1, h2, h3, h4, -⟩ := processInputEvent_not_handled hx
      simp [h1, h2, h3, h4] at hm
    · rfl

/-- C3 amended, witness: Down moves the selection in a CreatingTodo state
with two todos, Up is ignored in a CreatingPage state, and a key arriving
in a RenamingTodo state is reported as handled. -/
theorem modal_updown_behavior_witness :
    stepFull true { appNew none with pages := [⟨mainName, [⟨[97], false⟩, ⟨[98], false⟩]⟩],
                                     isCreatingTodo := true } ⟨KeyCode.down, false, false⟩ =
      some (if ([⟨[97], false⟩, ⟨[98], false⟩] : List Todo).isEmpty
            then { appNew none with pages := [⟨mainName, [⟨[97], false⟩, ⟨[98], false⟩]⟩],
                                    isCreatingTodo := true }
            else { appNew none with pages := [⟨mainName, [⟨[97], false⟩, ⟨[98], false⟩]⟩],
                                    isCreatingTodo := true, selectedTodoIndex := (0 + 1) % 2 }) ∧
    stepFull true { appNew none with isCreatingPage := true } ⟨KeyCode.up, false, false⟩ =
      some { appNew none with isCreatingPage := true } ∧
    (({ appNew none with isRenamingTodo := true } : App), true).2 = true :=
  ⟨(modal_updown_behavior.1
      { appNew none with pages := [⟨mainName, [⟨[97], false⟩, ⟨[98], false⟩]⟩],
                         isCreatingTodo := true }
      [⟨[97], false⟩, ⟨[98], false⟩] true rfl rfl).1,
   modal_updown_behavior.2.1 { appNew none with isCreatingPage := true }
     ⟨KeyCode.up, false, false⟩ true rfl (Or.inl rfl) (Or.inl rfl),
   modal_updown_behavior.2.2 { appNew none with isRenamingTodo := true }
     ⟨KeyCode.other, false, false⟩
     ({ appNew none with isRenamingTodo := true }, true) (by decide) (by decide)⟩

end Doodoo

namespace Doodoo

theorem skipWsBack_all {buf : List Nat} : ∀ pos, (∀ i, i ≤ pos → isWs (buf.getD i 0) = true) →
    skipWsBack buf pos = 0 ∧ skipWsBackSpec buf (pos + 1) = 0 := by
  intro pos
  induction pos with
  | zero =>
      intro h
      refine ⟨rfl, ?_⟩
      rw [skipWsBackSpec, h 0 (le_refl 0)]
      rfl
  | succ p ih =>
      intro h
      have hw := h (p + 1) (le_refl _)
      have ⟨ih1, ih2⟩ := ih (fun i hi => h i (Nat.le_succ_of_le hi))
      refine ⟨?_, ?_⟩
      · rw [skipWsBack, hw]; exact ih1
      · rw [skipWsBackSpec, hw]; simpa using ih2

theorem skipWsBack_ex {buf : List Nat} : ∀ pos, (∃ i, i ≤ pos ∧ isWs (buf.getD i 0) = false) →
    skipWsBackSpec buf (pos + 1) = skipWsBack buf pos + 1 ∧
    isWs (buf.getD (skipWsBack buf pos) 0) = false := by
  intro pos
  induction pos with
  | zero =>
      rintro ⟨i, hi, hw⟩
      interval_cases i
      refine ⟨?_, hw⟩
      rw [skipWsBackSpec, hw]
      rfl
  | succ p ih =>
      rintro ⟨i, hi, hw⟩
      by_cases hp : isWs (buf.getD (p + 1) 0) = true
      · have hip : i ≤ p := by
          by_contra hc
          have hie : i = p + 1 := by omega
          rw [hie, hp] at hw
          exact absurd hw (by decide)
        have ⟨ih1, ih2⟩ := ih ⟨i, hip, hw⟩
        constructor
        · rw [skipWsBackSpec, hp, skipWsBack, hp]; simpa using ih1
        · rw [skipWsBack, hp]; exact ih2
      · have hp' : isWs (buf.getD (p + 1) 0) = false := by
          cases hb : isWs (buf.getD (p + 1) 0)
          · rfl
          · exact absurd hb hp
        constructor
        · rw [skipWsBackSpec, hp', skipWsBack, hp']; rfl
        · rw [skipWsBack, hp']; exact hp'

theorem skipNonWsBack_all {buf : List Nat} :
    ∀ pos, (∀ i, i ≤ pos → isWs (buf.getD i 0) = false) →
    skipNonWsBack buf pos = 0 ∧ skipNonWsBackSpec buf (pos + 1) = 0 := by
  intro pos
  induction pos with
  | zero =>
      intro h
      refine ⟨rfl, ?_⟩
      rw [skipNonWsBackSpec, h 0 (le_refl 0)]
      rfl
  | succ p ih =>
      intro h
      have hw := h (p + 1) (le_refl _)
      have ⟨ih1, ih2⟩ := ih (fun i hi => h i (Nat.le_succ_of_le hi))
      refine ⟨?_, ?_⟩
      · rw [skipNonWsBack, hw]; exact ih1
      · rw [skipNonWsBackSpec, hw]; simpa using ih2

theorem skipNonWsBack_ex {buf : List Nat} :
    ∀ pos, (∃ i, i ≤ pos ∧ isWs (buf.getD i 0) = true) →
    skipNonWsBackSpec buf (pos + 1) = skipNonWsBack buf pos + 1 ∧
    isWs (buf.getD (skipNonWsBack buf pos) 0) = true := by
  intro pos
  induction pos with
  | zero =>
      rintro ⟨i, hi, hw⟩
      interval_cases i
      refine ⟨?_, hw⟩
      rw [skipNonWsBackSpec, hw]
      rfl
  | succ p ih =>
      rintro ⟨i, hi, hw⟩
      by_cases hp : isWs (buf.getD (p + 1) 0) = true
      · constructor
        · rw [skipNonWsBackSpec, hp, skipNonWsBack, hp]; rfl
        · rw [skipNonWsBack, hp]; exact hp
      · have hp' : isWs (buf.getD (p + 1) 0) = false := by
          cases hb : isWs (buf.getD (p + 1) 0)
          · rfl
          · exact absurd hb hp
        have hip : i ≤ p := by
          by_contra hc
          have hie : i = p + 1 := by omega
          rw [hie, hp'] at hw
          exact absurd hw (by decide)
        have ⟨ih1, ih2⟩ := ih ⟨i, hip, hw⟩
        constructor
        · rw [skipNonWsBackSpec, hp', skipNonWsBack, hp']; simpa using ih1
        · rw [skipNonWsBack, hp']; exact ih2

theorem ctrlLeftPos_vs_spec (buf : List Nat) (cur : Nat) (h0 : 0 < cur) :
    ctrlLeftPos buf cur = if allWsBefore buf cur then 1 else ctrlLeftSpecPos buf cur := by
  by_cases hall : allWsBefore buf cur
  · rw [if_pos hall]
    have ⟨h1, _⟩ := @skipWsBack_all buf (cur - 1) (fun i hi => hall i (by omega))
    have hb0 : isWs (buf.getD 0 0) = true := hall 0 h0
    simp only [ctrlLeftPos]
    rw [h1, show skipNonWsBack buf 0 = 0 from rfl, hb0]
    rfl
  · rw [if_neg hall]
    have hex : ∃ i, i ≤ cur - 1 ∧ isWs (buf.getD i 0) = false := by
      unfold allWsBefore at hall
      push_neg at hall
      obtain ⟨i, hi, hiw⟩ := hall
      refine ⟨i, by omega, ?_⟩
      cases hb : isWs (buf.getD i 0)
      · rfl
      · exact absurd hb hiw
    have ⟨hs1, hw1⟩ := @skipWsBack_ex buf (cur - 1) hex
    have hcur : cur - 1 + 1 = cur := by omega
    rw [hcur] at hs1
    simp only [ctrlLeftPos, ctrlLeftSpecPos]
    rw [hs1]
    by_cases h2 : ∃ j, j ≤ skipWsBack buf (cur - 1) ∧ isWs (buf.getD j 0) = true
    · have ⟨hs2, hw2⟩ := @skipNonWsBack_ex buf (skipWsBack buf (cur - 1)) h2
      rw [hs2]
      rcases Nat.eq_zero_or_pos (skipNonWsBack buf (skipWsBack buf (cur - 1))) with hz | hpos
      · rw [hz] at hw2 ⊢
        rw [hw2]
        rfl
      · rw [decide_eq_true hpos, Bool.true_or, if_pos rfl]
    · push_neg at h2
      have h2' : ∀ j, j ≤ skipWsBack buf (cur - 1) → isWs (buf.getD j 0) = false := by
        intro j hj
        cases hb : isWs (buf.getD j 0)
        · rfl
        · exact absurd hb (by simpa using h2 j hj)
      have ⟨hs4, hs4'⟩ := @skipNonWsBack_all buf (skipWsBack buf (cur - 1)) h2'
      have hb0 : isWs (buf.getD 0 0) = false := h2' 0 (Nat.zero_le _)
      rw [hs4', hs4, hb0]
      rfl

end Doodoo

namespace Doodoo

/-- C6 counterexample: on buffer " x" (space, then 'x') with the cursor at 1,
every byte before the cursor is whitespace; the code's Ctrl+Left leaves the
cursor at 1 instead of landing at position 0 as the claim's description
("landing just after the whitespace that precedes that run or at position
0") prescribes for every buffer and cursor position. -/
theorem ctrl_left_leading_ws_stuck :
    editBuffer [32, 120] 1 ⟨KeyCode.left, true, false⟩ =
      some ([32, 120], 1, EditResult.noop) ∧
    ctrlLeftSpecPos [32, 120] 1 = 0 ∧ (1 : Nat) ≠ 0 := by decide

/-- C6 amended: Ctrl+Left jumps to the start of the previous word exactly as
described (skip whitespace before the cursor, then the non-whitespace run,
landing just after the preceding whitespace or at 0) — except when every
byte strictly before the cursor is whitespace, in which case the cursor
lands at position 1 rather than 0; on "hello   world" the claimed anchors
13 → 8 and 8 → 0 hold. -/
theorem ctrl_left_word_jump :
    (∀ (buf : List Nat) (cur : Nat), cur ≤ buf.length →
      editBuffer buf cur ⟨KeyCode.left, true, false⟩ =
        some (buf,
          (if allWsBefore buf cur ∧ 0 < cur then 1 else ctrlLeftSpecPos buf cur),
          EditResult.noop)) ∧
    editBuffer [104, 101, 108, 108, 111, 32, 32, 32, 119, 111, 114, 108, 100] 13
        ⟨KeyCode.left, true, false⟩ =
      some ([104, 101, 108, 108, 111, 32, 32, 32, 119, 111, 114, 108, 100], 8,
        EditResult.noop) ∧
    editBuffer [104, 101, 108, 108, 111, 32, 32, 32, 119, 111, 114, 108, 100] 8
        ⟨KeyCode.left, true, false⟩ =
      some ([104, 101, 108, 108, 111, 32, 32, 32, 119, 111, 114, 108, 100], 0,
        EditResult.noop) := by
  refine ⟨?_, by decide, by decide⟩
  intro buf cur hlen
  unfold editBuffer
  rcases Nat.eq_zero_or_pos cur with hz | hpos
  · rw [hz]
    rfl
  · show some (buf, (if cur > 0 then ctrlLeftPos buf cur else cur), EditResult.noop) = _
    rw [if_pos hpos, ctrlLeftPos_vs_spec buf cur hpos]
    by_cases hall : allWsBefore buf cur
    · rw [if_pos hall, if_pos ⟨hall, hpos⟩]
    · rw [if_neg hall, if_neg (fun hc => hall hc.1)]

/-- C6 amended, witness at buffer "hello   world" with cursor 13. -/
theorem ctrl_left_word_jump_witness :
    editBuffer [104, 101, 108, 108, 111, 32, 32, 32, 119, 111, 114, 108, 100] 13
        ⟨KeyCode.left, true, false⟩ =
      some ([104, 101, 108, 108, 111, 32, 32, 32, 119, 111, 114, 108, 100],
        (if allWsBefore [104, 101, 108, 108, 111, 32, 32, 32, 119, 111, 114, 108, 100] 13 ∧
            0 < 13
         then 1
         else ctrlLeftSpecPos [104, 101, 108, 108, 111, 32, 32, 32, 119, 111, 114, 108, 100] 13),
        EditResult.noop) :=
  ctrl_left_word_jump.1 [104, 101, 108, 108, 111, 32, 32, 32, 119, 111, 114, 108, 100] 13
    (by decide)

end Doodoo

namespace Doodoo

/-- C7: in Normal mode a digit key `d` (scalar value `c = d + 48`, `1 ≤ d ≤ 9`)
renames the current page when `d - 1` is the current page index (buffer
pre-filled with the page name, cursor at its end), switches to page `d - 1`
and resets the todo selection when that is a different valid index, and
enters CreatingPage with a cleared buffer when `d` exceeds the page count. -/
theorem digit_key_behavior (a : App) (c : Nat) (sOk : Bool)
    (h1 : a.isCreatingTodo = false) (h2 : a.isCreatingPage = false)
    (h3 : a.isRenamingPage = false) (h4 : a.isRenamingTodo = false)
    (hc1 : 49 ≤ c) (hc2 : c ≤ 57) :
    (∀ pg, c - 49 = a.currentPageIndex → a.currentPageIndex < a.pages.length →
      a.pages.get? a.currentPageIndex = some pg →
      stepFull sOk a ⟨KeyCode.char c, false, false⟩ =
        some { a with renamePageInput := pg.name, cursorPosition := pg.name.length,
                      isRenamingPage := true }) ∧
    (c - 49 ≠ a.currentPageIndex → c - 49 < a.pages.length →
      stepFull sOk a ⟨KeyCode.char c, false, false⟩ =
        some { a with currentPageIndex := c - 49, selectedTodoIndex := 0 }) ∧
    (a.pages.length < c - 48 →
      stepFull sOk a ⟨KeyCode.char c, false, false⟩ =
        some { a with isCreatingPage := true, newPageNameInput := [],
                      cursorPosition := 0 }) := by
  have hstep : stepFull sOk a ⟨KeyCode.char c, false, false⟩ =
      normalStep sOk a ⟨KeyCode.char c, false, false⟩ := by
    unfold stepFull processInputEvent
    rw [h1, h2, h3, h4]
    rfl
  have hnorm : normalStep sOk a ⟨KeyCode.char c, false, false⟩ = digitKey a c := by
    interval_cases c <;> rfl
  rw [hstep, hnorm]
  unfold digitKey
  refine ⟨?_, ?_, ?_⟩
  · intro pg he hlt hpg
    have h49 : c - 48 - 1 = c - 49 := by omega
    rw [h49, he, if_pos hlt, if_pos rfl, hpg]
  · intro hne hlt
    have h49 : c - 48 - 1 = c - 49 := by omega
    rw [h49, if_pos hlt, if_neg hne]
  · intro hgt
    have h49 : c - 48 - 1 = c - 49 := by omega
    rw [h49, if_neg (by omega)]

/-- C7 witness: two pages, current page 0; pressing '2' (the second branch)
switches to page 1 and resets the selection. -/
theorem digit_key_behavior_witness :
    stepFull true { appNew none with pages := [⟨[112], []⟩, ⟨[113], []⟩] }
        ⟨KeyCode.char 50, false, false⟩ =
      some { appNew none with pages := [⟨[112], []⟩, ⟨[113], []⟩],
                              currentPageIndex := 50 - 49, selectedTodoIndex := 0 } :=
  (digit_key_behavior { appNew none with pages := [⟨[112], []⟩, ⟨[113], []⟩] } 50 true
      rfl rfl rfl rfl (by decide) (by decide)).2.1 (by decide) (by decide)

end Doodoo

namespace Doodoo

/-- C8: in Normal mode with at least two todos, Shift+Down swaps the
selected todo with the cyclically-next one and moves the selection to the
swapped-to index; and from a 3-todo page with selection 0, one press swaps
indices 0 and 1 moving the selection to 1, and two further presses return
the originally-first todo to index 0 via wraparound. -/
theorem shift_down_swap (a : App) (ts : List Todo) (x y : Todo)
    (h1 : a.isCreatingTodo = false) (h2 : a.isCreatingPage = false)
    (h3 : a.isRenamingPage = false) (h4 : a.isRenamingTodo = false)
    (hts : a.curTodos? = some ts) (hlen : 2 ≤ ts.length)
    (hx : ts.get? a.selectedTodoIndex = some x)
    (hy : ts.get? ((a.selectedTodoIndex + 1) % ts.length) = some y) :
    (stepFull true a ⟨KeyCode.down, false, true⟩ =
      some { a.setCurTodos
               ((ts.set a.selectedTodoIndex y).set
                 ((a.selectedTodoIndex + 1) % ts.length) x) with
             selectedTodoIndex := (a.selectedTodoIndex + 1) % ts.length }) ∧
    runEvents { appNew none with
                pages := [⟨mainName, [⟨[65], false⟩, ⟨[66], false⟩, ⟨[67], false⟩]⟩] }
        [(⟨KeyCode.down, false, true⟩, true), (⟨KeyCode.down, false, true⟩, true),
         (⟨KeyCode.down, false, true⟩, true)] =
      some { appNew none with
             pages := [⟨mainName, [⟨[65], false⟩, ⟨[67], false⟩, ⟨[66], false⟩]⟩],
             selectedTodoIndex := 0 } := by
  refine ⟨?_, by decide⟩
  have hstep : stepFull true a ⟨KeyCode.down, false, true⟩ =
      normalStep true a ⟨KeyCode.down, false, true⟩ := by
    unfold stepFull processInputEvent
    rw [h1, h2, h3, h4]
    rfl
  rw [hstep]
  show downSwapTodo true a = _
  have hne : ts.isEmpty = false := by
    rcases ts with _ | ⟨t, rest⟩
    · simp at hlen
    · rfl
  simp only [downSwapTodo, hts]
  rw [if_pos ⟨hne, by omega⟩]
  simp only [listSwap, hx, hy]
  rw [if_pos trivial]

/-- C8 witness: two todos, selection 0 — Shift+Down swaps them and selects
index 1. -/
theorem shift_down_swap_witness :
    stepFull true { appNew none with pages := [⟨mainName, [⟨[65], false⟩, ⟨[66], false⟩]⟩] }
        ⟨KeyCode.down, false, true⟩ =
      some { ({ appNew none with
                pages := [⟨mainName, [⟨[65], false⟩, ⟨[66], false⟩]⟩] } : App).setCurTodos
               ((([⟨[65], false⟩, ⟨[66], false⟩] : List Todo).set 0 ⟨[66], false⟩).set
                 ((0 + 1) % 2) ⟨[65], false⟩) with
             selectedTodoIndex := (0 + 1) % 2 } :=
  (shift_down_swap { appNew none with pages := [⟨mainName, [⟨[65], false⟩, ⟨[66], false⟩]⟩] }
    [⟨[65], false⟩, ⟨[66], false⟩] ⟨[65], false⟩ ⟨[66], false⟩
    rfl rfl rfl rfl rfl (by decide) (by decide) (by decide)).1

end Doodoo

namespace Doodoo

/-- A key event whose typed character (if any) is ASCII. -/
def asciiKey (k : KeyEvent) : Bool :=
  match k.code with
  | KeyCode.char c => decide (c < 128)
  | _ => true

/-- Iterate `edit_buffer` over a list of key events, tracking buffer and
cursor; `none` as soon as a call panics. -/
def editSteps : (List Nat × Nat) → List KeyEvent → Option (List Nat × Nat)
  | bc, [] => some bc
  | (buf, cur), k :: ks =>
      match editBuffer buf cur k with
      | none => none
      | some (buf', cur', _) => editSteps (buf', cur') ks

theorem skipWsBack_le {buf : List Nat} : ∀ pos, skipWsBack buf pos ≤ pos := by
  intro pos
  induction pos with
  | zero => exact le_refl 0
  | succ p ih =>
      rw [skipWsBack]
      split
      · omega
      · exact le_refl _

theorem skipNonWsBack_le {buf : List Nat} : ∀ pos, skipNonWsBack buf pos ≤ pos := by
  intro pos
  induction pos with
  | zero => exact le_refl 0
  | succ p ih =>
      rw [skipNonWsBack]
      split
      · exact le_refl _
      · omega

theorem countNonWs_le : ∀ l : List Nat, countNonWs l ≤ l.length := by
  intro l
  induction l with
  | nil => exact le_refl 0
  | cons b rest ih =>
      rw [countNonWs]
      split
      · simp
      · simpa using ih

theorem countWs_le : ∀ l : List Nat, countWs l ≤ l.length := by
  intro l
  induction l with
  | nil => exact le_refl 0
  | cons b rest ih =>
      rw [countWs]
      split
      · simpa using ih
      · simp

theorem ctrlLeftPos_le (buf : List Nat) (cur : Nat) (h0 : 0 < cur) :
    ctrlLeftPos buf cur ≤ cur := by
  simp only [ctrlLeftPos]
  have h1 : skipWsBack buf (cur - 1) ≤ cur - 1 := skipWsBack_le _
  have h2 : skipNonWsBack buf (skipWsBack buf (cur - 1)) ≤ skipWsBack buf (cur - 1) :=
    skipNonWsBack_le _
  split <;> omega

theorem ctrlRightPos_le (buf : List Nat) (cur : Nat) (h : cur ≤ buf.length) :
    ctrlRightPos buf cur ≤ buf.length := by
  simp only [ctrlRightPos]
  have h1 : countNonWs (buf.drop cur) ≤ (buf.drop cur).length := countNonWs_le _
  have h2 : countWs ((buf.drop cur).drop (countNonWs (buf.drop cur))) ≤
      ((buf.drop cur).drop (countNonWs (buf.drop cur))).length := countWs_le _
  simp only [List.length_drop] at h1 h2
  omega

theorem isCont_of_ascii {b : Nat} (hb : b < 128) : isCont b = false := by
  simp only [isCont]
  have : decide (128 ≤ b) = false := by simp; omega
  rw [this, Bool.false_and]

theorem isCharBoundary_of_ascii {buf : List Nat} (hA : ∀ b ∈ buf, b < 128)
    {i : Nat} (hi : i ≤ buf.length) : isCharBoundary buf i = true := by
  simp only [isCharBoundary]
  rcases Nat.lt_or_ge i buf.length with hlt | hge
  · have hmem : buf.getD i 0 ∈ buf := by
      rw [List.getD_eq_getElem?_getD, List.getElem?_eq_getElem hlt]
      exact List.getElem_mem _
    rw [isCont_of_ascii (hA _ hmem)]
    simp [hlt]
  · have : i = buf.length := by omega
    simp [this]

theorem editBuffer_safe {buf : List Nat} {cur : Nat} (k : KeyEvent)
    (hA : ∀ b ∈ buf, b < 128) (hc : cur ≤ buf.length) (hk : asciiKey k = true) :
    ∃ buf' cur' r, editBuffer buf cur k = some (buf', cur', r) ∧
      (∀ b ∈ buf', b < 128) ∧ cur' ≤ buf'.length := by
  rcases k with ⟨code, kctrl, kshift⟩
  cases code with
  | enter => exact ⟨buf, cur, EditResult.enter, rfl, hA, hc⟩
  | esc => exact ⟨buf, cur, EditResult.esc, rfl, hA, hc⟩
  | char c =>
      have hc128 : c < 128 := by simpa [asciiKey] using hk
      have henc : utf8Bytes c = [c] := by rw [utf8Bytes, if_pos hc128]
      refine ⟨buf.take cur ++ [c] ++ buf.drop cur, cur + 1, EditResult.noop, ?_, ?_, ?_⟩
      · show (stringInsert buf cur c).map (fun b => (b, cur + 1, EditResult.noop)) = _
        rw [stringInsert, if_pos (isCharBoundary_of_ascii hA hc), henc]
        rfl
      · intro b hb
        rcases List.mem_append.mp hb with hb' | hb'
        · rcases List.mem_append.mp hb' with hb'' | hb''
          · exact hA _ (List.mem_of_mem_take hb'')
          · rw [List.mem_singleton.mp hb'']; exact hc128
        · exact hA _ (List.mem_of_mem_drop hb')
      · simp only [List.length_append, List.length_take, List.length_drop,
          List.length_singleton]
        omega
  | backspace =>
      rcases Nat.eq_zero_or_pos cur with hz | hpos
      · refine ⟨buf, cur, EditResult.noop, ?_, hA, hc⟩
        rw [editBuffer, hz]
        rfl
      · have hlt : cur - 1 < buf.length := by omega
        have hbd : isCharBoundary buf (cur - 1) = true :=
          isCharBoundary_of_ascii hA (by omega)
        have hmem : buf.getD (cur - 1) 0 ∈ buf := by
          rw [List.getD_eq_getElem?_getD, List.getElem?_eq_getElem hlt]
          exact List.getElem_mem _
        have hlen1 : charLenAt (buf.getD (cur - 1) 0) = 1 := by
          rw [charLenAt, if_pos (hA _ hmem)]
        refine ⟨buf.take (cur - 1) ++ buf.drop (cur - 1 + 1), cur - 1, EditResult.noop,
          ?_, ?_, ?_⟩
        · show (if cur > 0 then (stringRemove buf (cur - 1)).map
              (fun b => (b, cur - 1, EditResult.noop)) else some (buf, cur, EditResult.noop)) = _
          rw [if_pos hpos, stringRemove, if_pos ⟨hlt, hbd⟩, hlen1]
          rfl
        · intro b hb
          rcases List.mem_append.mp hb with hb' | hb'
          · exact hA _ (List.mem_of_mem_take hb')
          · exact hA _ (List.mem_of_mem_drop hb')
        · simp only [List.length_append, List.length_take, List.length_drop]
          omega
  | left =>
      cases kctrl with
      | false =>
          refine ⟨buf, (if cur > 0 then cur - 1 else cur), EditResult.noop, rfl, hA, ?_⟩
          split <;> omega
      | true =>
          refine ⟨buf, (if cur > 0 then ctrlLeftPos buf cur else cur), EditResult.noop,
            rfl, hA, ?_⟩
          split
          · have := ctrlLeftPos_le buf cur (by omega)
            omega
          · exact hc
  | right =>
      cases kctrl with
      | false =>
          refine ⟨buf, (if cur < buf.length then cur + 1 else cur), EditResult.noop,
            rfl, hA, ?_⟩
          split <;> omega
      | true =>
          exact ⟨buf, ctrlRightPos buf cur, EditResult.noop, rfl, hA, ctrlRightPos_le buf cur hc⟩
  | up => exact ⟨buf, cur, EditResult.noop, rfl, hA, hc⟩
  | down => exact ⟨buf, cur, EditResult.noop, rfl, hA, hc⟩
  | other => exact ⟨buf, cur, EditResult.noop, rfl, hA, hc⟩

theorem editSteps_safe : ∀ (ks : List KeyEvent) (buf : List Nat) (cur : Nat),
    (∀ k ∈ ks, asciiKey k = true) → (∀ b ∈ buf, b < 128) → cur ≤ buf.length →
    ∃ bc, editSteps (buf, cur) ks = some bc ∧ (∀ b ∈ bc.1, b < 128) ∧ bc.2 ≤ bc.1.length := by
  intro ks
  induction ks with
  | nil => exact fun buf cur _ hA hc => ⟨(buf, cur), rfl, hA, hc⟩
  | cons k ks ih =>
      intro buf cur hks hA hc
      obtain ⟨buf', cur', r, heb, hA', hc'⟩ :=
        editBuffer_safe k hA hc (hks k (List.mem_cons_self _ _))
      obtain ⟨bc, hsteps, hbc⟩ :=
        ih buf' cur' (fun k' hk' => hks k' (List.mem_cons_of_mem _ hk')) hA' hc'
      refine ⟨bc, ?_, hbc⟩
      rw [editSteps, heb]
      exact hsteps

/-- C10: starting from the empty buffer with cursor 0, any sequence of key
events whose typed characters are all ASCII keeps every `String::insert` and
`String::remove` index in bounds and on a character boundary — `edit_buffer`
never panics (the iteration never returns `none`) and the byte cursor stays
within `[0, buffer length]`.  The ASCII precondition matters: typing the
non-ASCII character U+00E9 and then any character panics, because the cursor
advances by 1 byte into the middle of the 2-byte encoding. -/
theorem edit_buffer_ascii_safety :
    (∀ ks : List KeyEvent, (∀ k ∈ ks, asciiKey k = true) →
      ∃ bc, editSteps ([], 0) ks = some bc ∧ bc.2 ≤ bc.1.length) ∧
    editSteps ([], 0)
      [⟨KeyCode.char 233, false, false⟩, ⟨KeyCode.char 97, false, false⟩] = none := by
  constructor
  · intro ks hks
    obtain ⟨bc, hsteps, _, hcur⟩ :=
      editSteps_safe ks [] 0 hks (by intro b hb; cases hb) (Nat.zero_le _)
    exact ⟨bc, hsteps, hcur⟩
  · decide

/-- C10 witness: typing 'h', 'i', backspace, Ctrl+Left over ASCII input
succeeds with the cursor in bounds. -/
theorem edit_buffer_ascii_safety_witness :
    ∃ bc, editSteps ([], 0)
        [⟨KeyCode.char 104, false, false⟩, ⟨KeyCode.char 105, false, false⟩,
         ⟨KeyCode.backspace, false, false⟩, ⟨KeyCode.left, true, false⟩] = some bc ∧
      bc.2 ≤ bc.1.length :=
  edit_buffer_ascii_safety.1
    [⟨KeyCode.char 104, false, false⟩, ⟨KeyCode.char 105, false, false⟩,
     ⟨KeyCode.backspace, false, false⟩, ⟨KeyCode.left, true, false⟩] (by decide)

end Doodoo

namespace Doodoo

/-- The index invariant: at least one page, a valid current-page index, and
a selection that is 0 on an empty todo list and in `[0, len)` otherwise. -/
def InvData (pages : List Page) (cpi sel : Nat) : Prop :=
  0 < pages.length ∧ cpi < pages.length ∧
  ∀ pg, pages.get? cpi = some pg →
    (pg.todos.isEmpty = true → sel = 0) ∧
    (pg.todos.isEmpty = false → sel < pg.todos.length)

/-- The invariant of an `App` state. -/
def AppInv (a : App) : Prop :=
  InvData a.pages a.currentPageIndex a.selectedTodoIndex

theorem curTodos?_eq_some {a : App} {ts : List Todo} (h : a.curTodos? = some ts) :
    ∃ pg, a.pages.get? a.currentPageIndex = some pg ∧ pg.todos = ts := by
  unfold App.curTodos? at h
  rcases hg : a.pages.get? a.currentPageIndex with _ | pg
  · rw [hg] at h; cases h
  · rw [hg] at h
    exact ⟨pg, rfl, by simpa using h⟩

theorem curTodos?_of_get? {a : App} {pg : Page}
    (h : a.pages.get? a.currentPageIndex = some pg) : a.curTodos? = some pg.todos := by
  unfold App.curTodos?
  rw [h]
  rfl

theorem todos_nonempty_length {ts : List Todo} (h : ts.isEmpty = false) : 0 < ts.length := by
  cases ts
  · cases h
  · simp

/-- Selection update only: the invariant holds again when the new selection
is valid for the (unchanged) current todo list. -/
theorem AppInv_sel {a : App} {ts : List Todo} (h : AppInv a) (hts : a.curTodos? = some ts)
    (hne : ts.isEmpty = false) {sel : Nat} (hsel : sel < ts.length) :
    InvData a.pages a.currentPageIndex sel := by
  obtain ⟨h1, h2, _⟩ := h
  obtain ⟨pg, hpg, hpt⟩ := curTodos?_eq_some hts
  refine ⟨h1, h2, ?_⟩
  intro pg' hpg'
  rw [hpg] at hpg'
  cases hpg'
  rw [hpt]
  constructor
  · intro he; rw [he] at hne; cases hne
  · intro _; exact hsel

/-- A state whose selection was reset to 0 satisfies the invariant as soon
as its page list is non-empty and its page index valid. -/
theorem InvData_sel_zero {pages : List Page} {cpi : Nat} (h1 : 0 < pages.length)
    (h2 : cpi < pages.length) : InvData pages cpi 0 := by
  refine ⟨h1, h2, ?_⟩
  intro pg _
  exact ⟨fun _ => rfl, fun hne => todos_nonempty_length hne⟩

theorem AppInv_downNav {a a' : App} (h : AppInv a) (hd : downNav a = some a') :
    AppInv a' := by
  unfold downNav at hd
  split at hd
  · cases hd
  · rename_i ts hts
    split at hd
    · cases hd; exact h
    · rename_i hne
      cases hd
      have hne' : ts.isEmpty = false := by
        cases hb : ts.isEmpty
        · rfl
        · exact absurd hb hne
      exact AppInv_sel h hts hne'
        (Nat.mod_lt _ (todos_nonempty_length hne'))

theorem AppInv_upNav {a a' : App} (h : AppInv a) (hd : upNav a = some a') :
    AppInv a' := by
  unfold upNav at hd
  split at hd
  · cases hd
  · rename_i ts hts
    split at hd
    · cases hd; exact h
    · rename_i hne
      cases hd
      have hne' : ts.isEmpty = false := by
        cases hb : ts.isEmpty
        · rfl
        · exact absurd hb hne
      exact AppInv_sel h hts hne'
        (Nat.mod_lt _ (todos_nonempty_length hne'))

end Doodoo

namespace Doodoo

theorem isEmpty_false_of_pos {α : Type} {l : List α} (h : 0 < l.length) :
    l.isEmpty = false := by
  cases l
  · cases h
  · rfl

theorem get?_bound {α : Type} {l : List α} {n : Nat} {x : α} (h : l.get? n = some x) :
    n < l.length := by
  by_contra hc
  rw [List.get?_eq_none.mpr (by omega)] at h
  cases h

/-- Replacing the current page's todos: the invariant holds again when the
new selection is valid for the new list. -/
theorem InvData_set_todos {a : App} (h : AppInv a) {pg' : Page} {sel : Nat}
    (hsel : (pg'.todos.isEmpty = true → sel = 0) ∧
            (pg'.todos.isEmpty = false → sel < pg'.todos.length)) :
    InvData (a.pages.set a.currentPageIndex pg') a.currentPageIndex sel := by
  obtain ⟨h1, h2, _⟩ := h
  refine ⟨by simpa using h1, by simpa using h2, ?_⟩
  intro pg hpg
  rw [List.get?_set_eq] at hpg
  rcases hg : a.pages.get? a.currentPageIndex with _ | pgOld
  · rw [hg] at hpg; cases hpg
  · rw [hg] at hpg
    cases hpg
    exact hsel

end Doodoo

namespace Doodoo

theorem AppInv_creatingTodoStep {a a' : App} {k : KeyEvent} (h : AppInv a)
    (hd : creatingTodoStep a k = some a') : AppInv a' := by
  unfold creatingTodoStep at hd
  split at hd
  · -- Down
    split at hd
    · cases hd
    · rename_i ts hts
      split at hd
      · cases hd; exact h
      · rename_i hne
        cases hd
        have hne' : ts.isEmpty = false := by
          cases hb : ts.isEmpty
          · rfl
          · exact absurd hb hne
        exact AppInv_sel h hts hne' (Nat.mod_lt _ (todos_nonempty_length hne'))
  · -- Up
    split at hd
    · cases hd
    · rename_i ts hts
      split at hd
      · cases hd; exact h
      · rename_i hne
        cases hd
        have hne' : ts.isEmpty = false := by
          cases hb : ts.isEmpty
          · rfl
          · exact absurd hb hne
        exact AppInv_sel h hts hne' (Nat.mod_lt _ (todos_nonempty_length hne'))
  · -- editor
    split at hd
    · cases hd
    · rename_i buf cur r heb
      split at hd
      · -- Enter
        split at hd
        · cases hd; exact h
        · split at hd
          · cases hd
          · rename_i ts hts
            cases hd
            refine InvData_set_todos h ⟨?_, ?_⟩
            · intro he
              rw [List.isEmpty_eq_true] at he
              exact absurd he (by simp)
            · intro _
              simp only [List.length_append, List.length_singleton]
              omega
      · cases hd; exact h
      · cases hd; exact h

end Doodoo

namespace Doodoo

theorem AppInv_creatingPageStep {a a' : App} {k : KeyEvent} (h : AppInv a)
    (hd : creatingPageStep a k = some a') : AppInv a' := by
  unfold creatingPageStep at hd
  split at hd
  · cases hd
  · rename_i buf cur r heb
    split at hd
    · -- Enter: append a page and move to it
      cases hd
      refine InvData_sel_zero ?_ ?_
      · simp
      · simp only [List.length_append, List.length_singleton]
        omega
    · cases hd; exact h
    · cases hd; exact h

theorem AppInv_renamingPageStep {a a' : App} {k : KeyEvent} (h : AppInv a)
    (hd : renamingPageStep a k = some a') : AppInv a' := by
  unfold renamingPageStep at hd
  split at hd
  · cases hd
  · rename_i buf cur r heb
    split at hd
    · -- Enter
      split at hd
      · -- empty buffer
        split at hd
        · -- more than one page
          split at hd
          · -- current index in bounds: delete the page
            rename_i hgt hlt
            cases hd
            have hlen : (a.pages.eraseIdx a.currentPageIndex).length =
                a.pages.length - 1 := List.length_eraseIdx_of_lt hlt
            refine InvData_sel_zero ?_ ?_
            · show 0 < (a.pages.eraseIdx a.currentPageIndex).length
              omega
            · show (if a.currentPageIndex ≥ (a.pages.eraseIdx a.currentPageIndex).length
                    then (a.pages.eraseIdx a.currentPageIndex).length - 1
                    else a.currentPageIndex) < (a.pages.eraseIdx a.currentPageIndex).length
              rw [hlen]
              split <;> omega
          · cases hd
        · cases hd; exact h
      · -- non-empty buffer: rename the current page
        split at hd
        · cases hd
        · rename_i pg hpg
          cases hd
          have hsel := h.2.2 pg hpg
          exact InvData_set_todos h hsel
    · cases hd; exact h
    · cases hd; exact h

theorem AppInv_renamingTodoStep {a a' : App} {k : KeyEvent} (h : AppInv a)
    (hd : renamingTodoStep a k = some a') : AppInv a' := by
  unfold renamingTodoStep at hd
  split at hd
  · cases hd
  · rename_i buf cur r heb
    split at hd
    · -- Enter
      split at hd
      · cases hd
      · rename_i ts hts
        split at hd
        · cases hd; exact h
        · split at hd
          · -- empty buffer: delete the selected todo
            split at hd
            · rename_i hlt
              cases hd
              have hlen : (ts.eraseIdx a.selectedTodoIndex).length = ts.length - 1 :=
                List.length_eraseIdx_of_lt hlt
              refine InvData_set_todos h ⟨?_, ?_⟩
              · intro he
                have he2 : (ts.eraseIdx a.selectedTodoIndex).isEmpty = true := he
                show (if (ts.eraseIdx a.selectedTodoIndex).isEmpty then 0
                      else if a.selectedTodoIndex ≥ (ts.eraseIdx a.selectedTodoIndex).length
                      then (ts.eraseIdx a.selectedTodoIndex).length - 1
                      else a.selectedTodoIndex) = 0
                rw [if_pos he2]
              · intro hne'
                have hne2 : (ts.eraseIdx a.selectedTodoIndex).isEmpty = false := hne'
                have hpos := todos_nonempty_length hne2
                show (if (ts.eraseIdx a.selectedTodoIndex).isEmpty then 0
                      else if a.selectedTodoIndex ≥ (ts.eraseIdx a.selectedTodoIndex).length
                      then (ts.eraseIdx a.selectedTodoIndex).length - 1
                      else a.selectedTodoIndex) < (ts.eraseIdx a.selectedTodoIndex).length
                rw [if_neg (by simp [hne2])]
                split <;> omega
            · cases hd
          · -- non-empty buffer: rename the selected todo
            split at hd
            · cases hd
            · rename_i t hget
              cases hd
              have hb := get?_bound hget
              refine InvData_set_todos h ⟨?_, ?_⟩
              · intro he
                rw [List.isEmpty_iff_length_eq_zero] at he
                simp only [List.length_set] at he
                omega
              · intro _
                simp only [List.length_set]
                exact hb
    · cases hd; exact h
    · cases hd; exact h

end Doodoo

namespace Doodoo

theorem AppInv_processInputEvent {a : App} {k : KeyEvent} {x : App × Bool} (h : AppInv a)
    (hp : processInputEvent a k = some x) : AppInv x.1 := by
  unfold processInputEvent at hp
  split at hp
  · rcases hc : creatingTodoStep a k with _ | a''
    · rw [hc] at hp; cases hp
    · rw [hc] at hp
      cases hp
      exact AppInv_creatingTodoStep h hc
  · split at hp
    · rcases hc : creatingPageStep a k with _ | a''
      · rw [hc] at hp; cases hp
      · rw [hc] at hp
        cases hp
        exact AppInv_creatingPageStep h hc
    · split at hp
      · rcases hc : renamingPageStep a k with _ | a''
        · rw [hc] at hp; cases hp
        · rw [hc] at hp
          cases hp
          exact AppInv_renamingPageStep h hc
      · split at hp
        · rcases hc : renamingTodoStep a k with _ | a''
          · rw [hc] at hp; cases hp
          · rw [hc] at hp
            cases hp
            exact AppInv_renamingTodoStep h hc
        · cases hp; exact h

theorem AppInv_downSwapTodo {sOk : Bool} {a a' : App} (h : AppInv a)
    (hd : downSwapTodo sOk a = some a') : AppInv a' := by
  unfold downSwapTodo at hd
  split at hd
  · cases hd
  · rename_i ts hts
    split at hd
    · rename_i hcond
      rcases hsw : listSwap ts a.selectedTodoIndex ((a.selectedTodoIndex + 1) % ts.length)
        with _ | ts'
      · simp only [hsw] at hd
        cases hd
      · simp only [hsw] at hd
        have hlen : ts'.length = ts.length := by
          unfold listSwap at hsw
          split at hsw
          · cases hsw
            simp
          · cases hsw
        split at hd
        · cases hd
          refine InvData_set_todos h ⟨?_, ?_⟩
          · intro he
            rw [List.isEmpty_iff_length_eq_zero] at he
            rw [show ({ (a.pages.getD a.currentPageIndex ⟨[], []⟩ : Page) with
                  todos := ts' } : Page).todos = ts' from rfl, hlen] at he
            omega
          · intro _
            rw [show ({ (a.pages.getD a.currentPageIndex ⟨[], []⟩ : Page) with
                  todos := ts' } : Page).todos = ts' from rfl, hlen]
            exact Nat.mod_lt _ (by omega)
        · cases hd
    · cases hd; exact h

theorem AppInv_upSwapTodo {sOk : Bool} {a a' : App} (h : AppInv a)
    (hd : upSwapTodo sOk a = some a') : AppInv a' := by
  unfold upSwapTodo at hd
  split at hd
  · cases hd
  · rename_i ts hts
    split at hd
    · rename_i hcond
      rcases hsw : listSwap ts a.selectedTodoIndex ((a.selectedTodoIndex + ts.length - 1) % ts.length)
        with _ | ts'
      · simp only [hsw] at hd
        cases hd
      · simp only [hsw] at hd
        have hlen : ts'.length = ts.length := by
          unfold listSwap at hsw
          split at hsw
          · cases hsw
            simp
          · cases hsw
        split at hd
        · cases hd
          refine InvData_set_todos h ⟨?_, ?_⟩
          · intro he
            rw [List.isEmpty_iff_length_eq_zero] at he
            rw [show ({ (a.pages.getD a.currentPageIndex ⟨[], []⟩ : Page) with
                  todos := ts' } : Page).todos = ts' from rfl, hlen] at he
            omega
          · intro _
            rw [show ({ (a.pages.getD a.currentPageIndex ⟨[], []⟩ : Page) with
                  todos := ts' } : Page).todos = ts' from rfl, hlen]
            exact Nat.mod_lt _ (by omega)
        · cases hd
    · cases hd; exact h

theorem AppInv_toggleTodo {sOk : Bool} {a a' : App} (h : AppInv a)
    (hd : toggleTodo sOk a = some a') : AppInv a' := by
  unfold toggleTodo at hd
  split at hd
  · cases hd
  · rename_i ts hts
    split at hd
    · cases hd; exact h
    · split at hd
      · cases hd
      · rename_i t hget
        have hb := get?_bound hget
        split at hd
        · cases hd
          refine InvData_set_todos h ⟨?_, ?_⟩
          · intro he
            rw [List.isEmpty_iff_length_eq_zero] at he
            simp only [List.length_set] at he
            omega
          · intro _
            simp only [List.length_set]
            exact hb
        · cases hd

theorem AppInv_deleteTodo {sOk : Bool} {a a' : App} (h : AppInv a)
    (hd : deleteTodo sOk a = some a') : AppInv a' := by
  unfold deleteTodo at hd
  split at hd
  · cases hd
  · rename_i ts hts
    split at hd
    · cases hd; exact h
    · split at hd
      · rename_i hlt
        have hlen : (ts.eraseIdx a.selectedTodoIndex).length = ts.length - 1 :=
          List.length_eraseIdx_of_lt hlt
        split at hd
        · cases hd
          refine InvData_set_todos h ⟨?_, ?_⟩
          · intro he
            have he2 : (ts.eraseIdx a.selectedTodoIndex).isEmpty = true := he
            show (if (ts.eraseIdx a.selectedTodoIndex).isEmpty then 0
                  else if a.selectedTodoIndex ≥ (ts.eraseIdx a.selectedTodoIndex).length
                  then (ts.eraseIdx a.selectedTodoIndex).length - 1
                  else a.selectedTodoIndex) = 0
            rw [if_pos he2]
          · intro hne'
            have hne2 : (ts.eraseIdx a.selectedTodoIndex).isEmpty = false := hne'
            have hpos := todos_nonempty_length hne2
            show (if (ts.eraseIdx a.selectedTodoIndex).isEmpty then 0
                  else if a.selectedTodoIndex ≥ (ts.eraseIdx a.selectedTodoIndex).length
                  then (ts.eraseIdx a.selectedTodoIndex).length - 1
                  else a.selectedTodoIndex) < (ts.eraseIdx a.selectedTodoIndex).length
            rw [if_neg (by simp [hne2])]
            split <;> omega
        · cases hd
      · cases hd

theorem AppInv_startRenameTodo {a a' : App} (h : AppInv a)
    (hd : startRenameTodo a = some a') : AppInv a' := by
  unfold startRenameTodo at hd
  split at hd
  · cases hd
  · split at hd
    · cases hd; exact h
    · split at hd
      · cases hd
      · cases hd; exact h

end Doodoo

namespace Doodoo

theorem AppInv_swapPages {a : App} (h : AppInv a) {j : Nat} {pages' : List Page}
    (hsw : listSwap a.pages a.currentPageIndex j = some pages') (hj : j < a.pages.length) :
    InvData pages' j a.selectedTodoIndex := by
  unfold listSwap at hsw
  split at hsw
  · rename_i x y hx hy
    cases hsw
    obtain ⟨h1, h2, h3⟩ := h
    refine ⟨by simpa using h1, by simpa using hj, ?_⟩
    intro pg hpg
    rw [List.get?_set_eq] at hpg
    have hin : (a.pages.set a.currentPageIndex y).get? j =
        some ((a.pages.set a.currentPageIndex y).get ⟨j, by simpa using hj⟩) :=
      List.get?_eq_get _
    rw [hin] at hpg
    cases hpg
    exact h3 x hx
  · cases hsw

theorem AppInv_rightPage {sOk : Bool} {a a' : App} {sh : Bool} (h : AppInv a)
    (hd : rightPage sOk a sh = some a') : AppInv a' := by
  unfold rightPage at hd
  split at hd
  · split at hd
    · rename_i hgt
      rcases hsw : listSwap a.pages a.currentPageIndex
          ((a.currentPageIndex + 1) % a.pages.length) with _ | pages'
      · simp only [hsw] at hd
        cases hd
      · simp only [hsw] at hd
        split at hd
        · cases hd
          exact AppInv_swapPages h hsw (Nat.mod_lt _ (by omega))
        · cases hd
    · cases hd; exact h
  · split at hd
    · cases hd; exact h
    · rename_i hne
      cases hd
      have h1 := h.1
      exact InvData_sel_zero h1 (Nat.mod_lt _ h1)

theorem AppInv_leftPage {sOk : Bool} {a a' : App} {sh : Bool} (h : AppInv a)
    (hd : leftPage sOk a sh = some a') : AppInv a' := by
  unfold leftPage at hd
  split at hd
  · split at hd
    · rename_i hgt
      rcases hsw : listSwap a.pages a.currentPageIndex
          ((a.currentPageIndex + a.pages.length - 1) % a.pages.length) with _ | pages'
      · simp only [hsw] at hd
        cases hd
      · simp only [hsw] at hd
        split at hd
        · cases hd
          exact AppInv_swapPages h hsw (Nat.mod_lt _ (by omega))
        · cases hd
    · cases hd; exact h
  · split at hd
    · cases hd; exact h
    · rename_i hne
      cases hd
      have h1 := h.1
      exact InvData_sel_zero h1 (Nat.mod_lt _ h1)

theorem AppInv_digitKey {a a' : App} {c : Nat} (h : AppInv a)
    (hd : digitKey a c = some a') : AppInv a' := by
  unfold digitKey at hd
  rcases hg : a.pages.get? a.currentPageIndex with _ | pg <;> simp only [hg] at hd
  · split at hd
    · split at hd
      · cases hd
      · rename_i hlt hne
        cases hd
        exact InvData_sel_zero h.1 hlt
    · cases hd; exact h
  · split at hd
    · split at hd
      · cases hd; exact h
      · rename_i hlt hne
        cases hd
        exact InvData_sel_zero h.1 hlt
    · cases hd; exact h

theorem AppInv_normalStep {sOk : Bool} {a a' : App} {k : KeyEvent} (h : AppInv a)
    (hd : normalStep sOk a k = some a') : AppInv a' := by
  unfold normalStep at hd
  split at hd <;>
    first
    | (cases hd; exact h)
    | exact AppInv_toggleTodo h hd
    | exact AppInv_deleteTodo h hd
    | exact AppInv_startRenameTodo h hd
    | exact AppInv_rightPage h hd
    | exact AppInv_leftPage h hd
    | (split at hd <;>
        first
        | (cases hd; exact h)
        | exact AppInv_downSwapTodo h hd
        | exact AppInv_upSwapTodo h hd
        | exact AppInv_downNav h hd
        | exact AppInv_upNav h hd
        | exact AppInv_digitKey h hd)

theorem AppInv_stepFull {sOk : Bool} {a a' : App} {k : KeyEvent} (h : AppInv a)
    (hs : stepFull sOk a k = some a') : AppInv a' := by
  unfold stepFull at hs
  split at hs
  · cases hs
  · rename_i x hx
    split at hs
    · cases hs
      exact AppInv_processInputEvent h hx
    · have hmid := AppInv_processInputEvent h hx
      exact AppInv_normalStep hmid hs

theorem AppInv_runEvents : ∀ (evs : List (KeyEvent × Bool)) (a a' : App), AppInv a →
    runEvents a evs = some a' → AppInv a' := by
  intro evs
  induction evs with
  | nil =>
      intro a a' h hr
      cases hr
      exact h
  | cons e rest ih =>
      intro a a' h hr
      rcases e with ⟨k, sOk⟩
      unfold runEvents at hr
      split at hr
      · cases hr
      · rename_i a'' hs
        exact ih a'' a' (AppInv_stepFull h hs) hr

theorem AppInv_appNew (f : Option Json) : AppInv (appNew f) := by
  simp only [appNew]
  split
  · exact InvData_sel_zero (by simp) (by simp)
  · rename_i hne
    refine InvData_sel_zero ?_ ?_ <;>
      · rcases hl : (loadAppData f).getD [] with _ | ⟨p, ps⟩
        · rw [hl] at hne
          exact absurd rfl hne
        · simp
end Doodoo

namespace Doodoo

/-- C4: for every sequence of key events applied to a freshly constructed
App (whatever the data file held), the Document always contains at least
one Page and `current_page_index` is a valid index; and committing a rename
of the only remaining page with an empty buffer leaves the page list (and
that page) unchanged. -/
theorem pages_invariant :
    (∀ (f : Option Json) (evs : List (KeyEvent × Bool)) (a' : App),
      runEvents (appNew f) evs = some a' →
      0 < a'.pages.length ∧ a'.currentPageIndex < a'.pages.length) ∧
    (∀ (a : App) (sOk : Bool), a.isCreatingTodo = false → a.isCreatingPage = false →
      a.isRenamingPage = true → a.pages.length = 1 → a.renamePageInput = [] →
      stepFull sOk a ⟨KeyCode.enter, false, false⟩ =
        some { a with isRenamingPage := false }) := by
  constructor
  · intro f evs a' hr
    have h := AppInv_runEvents evs (appNew f) a' (AppInv_appNew f) hr
    exact ⟨h.1, h.2.1⟩
  · intro a sOk h1 h2 h3 hlen hbuf
    obtain ⟨pgs, cpi, sel, ict, nti, icp, npi, irp, rpi, irt, rti, sq, cp⟩ := a
    simp only at h1 h2 h3 hlen hbuf
    subst h1
    subst h2
    subst h3
    subst hbuf
    unfold stepFull processInputEvent renamingPageStep
    simp only [Bool.false_eq_true, if_false, if_true]
    rw [show editBuffer [] cp ⟨KeyCode.enter, false, false⟩ =
        some ([], cp, EditResult.enter) from rfl]
    simp only [List.isEmpty_nil, if_true, hlen]
    rfl

/-- C4 witness: the invariant at the freshly constructed App with no data
file and no events, and the rename guard at a one-page renaming state with
an empty buffer. -/
theorem pages_invariant_witness :
    (0 < (appNew none).pages.length ∧
      (appNew none).currentPageIndex < (appNew none).pages.length) ∧
    stepFull true { appNew none with isRenamingPage := true }
        ⟨KeyCode.enter, false, false⟩ =
      some { { appNew none with isRenamingPage := true } with isRenamingPage := false } :=
  ⟨pages_invariant.1 none [] (appNew none) rfl,
   pages_invariant.2 { appNew none with isRenamingPage := true } true rfl rfl rfl rfl rfl⟩

/-- C5: for every sequence of key events applied to a freshly constructed
App, `selected_todo_index` is within `[0, len)` whenever the current page's
todo list is non-empty, and equals 0 whenever it is empty. -/
theorem selection_invariant (f : Option Json) (evs : List (KeyEvent × Bool)) (a' : App)
    (hr : runEvents (appNew f) evs = some a') :
    ∀ ts, a'.curTodos? = some ts →
      (ts.isEmpty = true → a'.selectedTodoIndex = 0) ∧
      (ts.isEmpty = false → a'.selectedTodoIndex < ts.length) := by
  have h := AppInv_runEvents evs (appNew f) a' (AppInv_appNew f) hr
  intro ts hts
  obtain ⟨pg, hpg, hpt⟩ := curTodos?_eq_some hts
  have hcond := h.2.2 pg hpg
  rw [hpt] at hcond
  exact hcond

/-- C5 witness: the invariant instantiated at the freshly constructed App
(empty "main" page, selection 0). -/
theorem selection_invariant_witness :
    (([] : List Todo).isEmpty = true → (appNew none).selectedTodoIndex = 0) ∧
    (([] : List Todo).isEmpty = false →
      (appNew none).selectedTodoIndex < ([] : List Todo).length) :=
  selection_invariant none [] (appNew none) rfl [] rfl

end Doodoo
